import Mathlib

/-!
Shallow embedding of the storage core of `quinn-memory-mcp-server`
(`src/index.ts`): the `Memory` record model, the zod argument parsing,
the dual-backend `addMemory` / `searchMemories` operations (DragonflyDB
key/sorted-set store with an in-memory fallback array), and the
`tools/call` dispatch with its error wrapping.

Modelling conventions:
* JS strings are Lean `String`s; `toLowerCase` is modelled as a
  character-wise `Char.toLower` map; `String.prototype.includes` is
  contiguous-substring containment on the character lists.
* `Date` values and sorted-set scores are epoch milliseconds (`Nat`);
  the `JSON.stringify`/`JSON.parse` round trip of a record is modelled
  as the identity on the record structure.
* `Math.random().toString(36)` is modelled by the finite list of
  base-36 fraction digits of the random double (every IEEE double in
  `[0,1)` has a finite base-36 expansion; the empty list models `0`,
  whose `toString(36)` is `"0"` with no fraction part).
* Redis state is a pair of association lists: string keys to stored
  records, and string keys to sorted-set entries `(member, score)`.
  `SET` overwrites, `ZADD` inserts or updates the member's score,
  `ZREVRANGE k 0 99` lists members by score descending (ties by
  reverse-lexicographic member) truncated to 100.
* Failure of the durable backend is modelled by explicit scenario
  flags: each redis call either succeeds or throws, and a thrown call
  performs no mutation.  In `addMemory` the two writes can fail
  independently; in `searchMemories` any failing call sends the whole
  `try` block to the fallback path, so one flag suffices.
-/

namespace QMem

/-- The `Memory` interface of `src/index.ts`.  `timestamp` is the
creation instant in epoch milliseconds. -/
structure Memory where
  id : String
  content : String
  userId : String
  timestamp : Nat
  deriving Repr, DecidableEq

/-- Does `hay` start with `needle`?  (character-list level) -/
def leadsWith : List Char → List Char → Bool
  | [], _ => true
  | _ :: _, [] => false
  | n :: ns, h :: hs => n == h && leadsWith ns hs

/-- Contiguous-substring test: does the haystack contain `needle`?
Models `String.prototype.includes`. -/
def containsSubL (needle : List Char) : List Char → Bool
  | [] => needle.isEmpty
  | h :: hs => leadsWith needle (h :: hs) || containsSubL needle hs

/-- `hay.includes(needle)` on JS strings. -/
def jsIncludes (hay needle : String) : Bool :=
  containsSubL needle.data hay.data

/-- `s.toLowerCase()`: character-wise lower casing. -/
def jsToLowerCase (s : String) : String :=
  ⟨s.data.map Char.toLower⟩

/-- The relevance filter of `searchMemories`:
`memory.content.toLowerCase().includes(query.toLowerCase())`. -/
def memMatches (query : String) (m : Memory) : Bool :=
  jsIncludes (jsToLowerCase m.content) (jsToLowerCase query)

/-! ### Stable sorting

`Array.prototype.sort` is stable (ECMAScript 2019); with the comparator
`(a, b) => b.timestamp - a.timestamp` it produces the stable descending
sort by timestamp.  We model it by insertion sort where a new element is
placed before the first element whose key is `≤` its own; processing is
right-to-left (`foldr`-shaped), so among equal keys earlier elements of
the input stay earlier in the output. -/

/-- Insert `a` before the first element `b` of `l` with `bef a b`. -/
def insBefore (bef : α → α → Bool) (a : α) : List α → List α
  | [] => [a]
  | b :: bs => if bef a b then a :: b :: bs else b :: insBefore bef a bs

/-- Insertion sort with placement predicate `bef`. -/
def sortByBef (bef : α → α → Bool) : List α → List α
  | [] => []
  | a :: as => insBefore bef a (sortByBef bef as)

/-- Placement predicate for a stable descending sort by a `Nat` key. -/
def tsBef (key : α → Nat) (a b : α) : Bool :=
  decide (key b ≤ key a)

/-- Stable descending sort by a `Nat` key; models the JS
`sort((a, b) => b.timestamp - a.timestamp)`. -/
def sortDescBy (key : α → Nat) : List α → List α :=
  sortByBef (tsBef key)

/-- The search/ranking step applied by both `searchMemories` paths to a
candidate list: keep the memories whose lower-cased content contains the
lower-cased query, sort by timestamp descending (stable), keep the
first 10. -/
def rank (cands : List Memory) (query : String) : List Memory :=
  (sortDescBy Memory.timestamp (cands.filter (memMatches query))).take 10

/-! ### Generic facts about the stable sort -/

theorem insBefore_perm (bef : α → α → Bool) (a : α) (l : List α) :
    List.Perm (insBefore bef a l) (a :: l) := by
  induction l with
  | nil => simp [insBefore]
  | cons b bs ih =>
    by_cases h : bef a b = true
    · simp [insBefore, h]
    · simp only [insBefore, h]
      simp only [Bool.false_eq_true, if_false]
      exact List.Perm.trans (ih.cons b) (List.Perm.swap a b bs)

theorem sortByBef_perm (bef : α → α → Bool) (l : List α) :
    List.Perm (sortByBef bef l) l := by
  induction l with
  | nil => simp [sortByBef]
  | cons a as ih =>
    exact List.Perm.trans (insBefore_perm bef a (sortByBef bef as)) (ih.cons a)

theorem mem_insBefore {bef : α → α → Bool} {a x : α} {l : List α} :
    x ∈ insBefore bef a l ↔ x = a ∨ x ∈ l := by
  rw [(insBefore_perm bef a l).mem_iff]
  simp

theorem insBefore_pairwise (key : α → Nat) (a : α) (l : List α)
    (h : l.Pairwise (fun x y => key y ≤ key x)) :
    (insBefore (tsBef key) a l).Pairwise (fun x y => key y ≤ key x) := by
  induction l with
  | nil => simp [insBefore]
  | cons b bs ih =>
    rcases List.pairwise_cons.mp h with ⟨hb, hbs⟩
    by_cases hba : tsBef key a b = true
    · have hkba : key b ≤ key a := of_decide_eq_true hba
      simp only [insBefore, hba, if_true]
      refine List.pairwise_cons.mpr ⟨?_, h⟩
      intro y hy
      rcases List.mem_cons.mp hy with rfl | hy'
      · exact hkba
      · exact le_trans (hb y hy') hkba
    · have hkab : key a < key b := by
        have := of_decide_eq_false (Bool.not_eq_true _ ▸ hba)
        omega
      simp only [insBefore, hba]
      simp only [Bool.false_eq_true, if_false]
      refine List.pairwise_cons.mpr ⟨?_, ih hbs⟩
      intro y hy
      rcases mem_insBefore.mp hy with rfl | hy'
      · exact le_of_lt hkab
      · exact hb y hy'

theorem sortDescBy_pairwise (key : α → Nat) (l : List α) :
    (sortDescBy key l).Pairwise (fun x y => key y ≤ key x) := by
  induction l with
  | nil => simp [sortDescBy, sortByBef]
  | cons a as ih => exact insBefore_pairwise key a _ ih

theorem sortDescBy_perm (key : α → Nat) (l : List α) :
    List.Perm (sortDescBy key l) l :=
  sortByBef_perm (tsBef key) l

theorem insBefore_filter_key (key : α → Nat) (a : α) (l : List α) (t : Nat) :
    (insBefore (tsBef key) a l).filter (fun x => key x == t)
      = if key a == t then a :: l.filter (fun x => key x == t)
        else l.filter (fun x => key x == t) := by
  induction l with
  | nil =>
    by_cases h : key a == t <;> simp [insBefore, List.filter, h]
  | cons b bs ih =>
    by_cases hba : tsBef key a b = true
    · by_cases hat : key a == t <;>
        simp [insBefore, hba, List.filter, hat]
    · have hkab : key a < key b := by
        have := of_decide_eq_false (Bool.not_eq_true _ ▸ hba)
        omega
      by_cases hat : key a == t
      · have hat' : key a = t := by simpa using hat
        have hbt : (key b == t) = false := by
          simp only [beq_eq_false_iff_ne, ne_eq]
          omega
        simp [insBefore, hba, List.filter, hbt, ih, hat]
      · by_cases hbt : key b == t <;>
          simp [insBefore, hba, List.filter, hbt, ih, hat]

theorem sortDescBy_filter_key (key : α → Nat) (l : List α) (t : Nat) :
    (sortDescBy key l).filter (fun x => key x == t)
      = l.filter (fun x => key x == t) := by
  induction l with
  | nil => rfl
  | cons a as ih =>
    show ((insBefore (tsBef key) a (sortDescBy key as)).filter
        (fun x => key x == t)) = _
    rw [insBefore_filter_key]
    by_cases hat : key a == t <;> simp [List.filter, hat, ih]

theorem sortDescBy_length (key : α → Nat) (l : List α) :
    (sortDescBy key l).length = l.length :=
  (sortDescBy_perm key l).length_eq

/-! ### Id generation: `Math.random().toString(36).substring(2, 15)` -/

/-- The character of one base-36 digit, as produced by
`Number.prototype.toString(36)`: `0`-`9` then `a`-`z`. -/
def digitChar36 (d : Fin 36) : Char :=
  if d.val < 10 then Char.ofNat (48 + d.val) else Char.ofNat (87 + d.val)

/-- `x.toString(36)` for a double `x` in `[0,1)`, represented by its
finite list of base-36 fraction digits (`[]` represents `0`). -/
def jsToString36 (digits : List (Fin 36)) : String :=
  match digits with
  | [] => "0"
  | _ => ⟨'0' :: '.' :: digits.map digitChar36⟩

/-- `s.substring(a, b)` on JS strings (character indices). -/
def substringJs (s : String) (a b : Nat) : String :=
  ⟨(s.data.drop a).take (b - a)⟩

/-- The id generator of `addMemory`:
`Math.random().toString(36).substring(2, 15)`. -/
def genId (digits : List (Fin 36)) : String :=
  substringJs (jsToString36 digits) 2 15

/-! ### Tool arguments and zod parsing -/

/-- A JSON value as far as the zod schemas can tell it apart: a string,
or anything that is not a string. -/
inductive JVal where
  | str : String → JVal
  | other : JVal
  deriving Repr, DecidableEq

/-- The `arguments` object of a tool call, restricted to the fields the
two zod schemas inspect.  `none` models an absent field. -/
structure RawArgs where
  content : Option JVal
  userId : Option JVal
  query : Option JVal
  deriving Repr, DecidableEq

/-- The one failure an `addMemory`/`searchMemories` call can throw past
its own body: a `ZodError` from `schema.parse`. -/
inductive ToolFailure where
  | zodError : ToolFailure
  deriving Repr, DecidableEq

/-- The default user sentinel: `z.string().default("quinn_may")`. -/
def defaultUserId : String := "quinn_may"

/-- `z.object({ content: z.string(), userId: z.string().default("quinn_may") }).parse(args)`:
succeeds iff `content` is present and a string and `userId` is absent
(defaulted) or a string. -/
def parseAddArgs (args : RawArgs) : Except ToolFailure (String × String) :=
  match args.content, args.userId with
  | some (.str c), none => .ok (c, defaultUserId)
  | some (.str c), some (.str u) => .ok (c, u)
  | _, _ => .error .zodError

/-- `z.object({ query: z.string(), userId: z.string().default("quinn_may") }).parse(args)`. -/
def parseSearchArgs (args : RawArgs) : Except ToolFailure (String × String) :=
  match args.query, args.userId with
  | some (.str q), none => .ok (q, defaultUserId)
  | some (.str q), some (.str u) => .ok (q, u)
  | _, _ => .error .zodError

/-! ### Redis (DragonflyDB) state -/

/-- Set a key in an association list, overwriting an existing binding
(first occurrence) or appending a new one. -/
def alSet (k : String) (v : α) : List (String × α) → List (String × α)
  | [] => [(k, v)]
  | (k1, v1) :: rest =>
    if k1 == k then (k, v) :: rest else (k1, v1) :: alSet k v rest

/-- Look a key up in an association list (first occurrence). -/
def alGet (k : String) : List (String × α) → Option α
  | [] => none
  | (k1, v1) :: rest => if k1 == k then some v1 else alGet k rest

/-- The durable backend's state: `kv` maps `memory:<userId>:<id>` keys
to the (JSON round-tripped) stored record; `zsets` maps
`memories:<userId>` keys to sorted-set entries `(member, score)`. -/
structure RedisState where
  kv : List (String × Memory)
  zsets : List (String × List (String × Nat))
  deriving Repr, DecidableEq

/-- The record key: `` `memory:${userId}:${id}` ``. -/
def memKey (userId id : String) : String :=
  "memory:" ++ userId ++ ":" ++ id

/-- The per-user index key: `` `memories:${userId}` ``. -/
def zsetKey (userId : String) : String :=
  "memories:" ++ userId

/-- `redis.set key record`. -/
def redisSet (k : String) (v : Memory) (r : RedisState) : RedisState :=
  { r with kv := alSet k v r.kv }

/-- `redis.zadd key score member`: insert the member or update its
score in the sorted set at `key`. -/
def redisZadd (k : String) (score : Nat) (member : String)
    (r : RedisState) : RedisState :=
  { r with zsets := alSet k (alSet member score ((alGet k r.zsets).getD [])) r.zsets }

/-- Strict precedence for `ZREVRANGE` listing: higher score first, ties
by reverse-lexicographic member. -/
def zrevBef (a b : String × Nat) : Bool :=
  b.2 < a.2 || (b.2 == a.2 && (compare b.1 a.1 == Ordering.lt))

/-- `redis.zrevrange key 0 99`: the members of the sorted set at `key`,
by score descending, truncated to 100. -/
def zrevrange100 (k : String) (r : RedisState) : List String :=
  (((sortByBef zrevBef ((alGet k r.zsets).getD [])).map Prod.fst).take 100)

/-! ### Server state and the two tool operations -/

/-- The mutable state of `QuinnMemoryServer`: the in-memory fallback
array `this.memories` and the durable backend. -/
structure ServerState where
  memories : List Memory
  redis : RedisState
  deriving Repr, DecidableEq

/-- The initial server state: empty fallback array, empty backend. -/
def initState : ServerState := ⟨[], ⟨[], []⟩⟩

/-- Which of the two durable writes of `addMemory` succeed.  A `false`
flag means the corresponding `await` throws (without mutating); the
`catch` block then appends the memory to the fallback array.  `zaddOk`
only matters when `setOk` is `true` (the `zadd` is not reached
otherwise). -/
structure AddScenario where
  setOk : Bool
  zaddOk : Bool
  deriving Repr, DecidableEq

/-- A single text content block, the shape both tools respond with. -/
structure ToolResponse where
  text : String
  deriving Repr, DecidableEq

/-- The success message of `addMemory`. -/
def addOkText (userId id : String) : String :=
  "Memory added successfully for user " ++ userId ++ ". Memory ID: " ++ id

/-- `addMemory(args)`.  Effects beyond the state are injected: `digits`
drives `Math.random().toString(36)`, `ts` is the `new Date()` instant
of the record, `score` the later `Date.now()` used for the index, and
`sc` tells which durable writes succeed. -/
def addMemory (args : RawArgs) (digits : List (Fin 36)) (ts score : Nat)
    (sc : AddScenario) (st : ServerState) :
    Except ToolFailure ToolResponse × ServerState :=
  match parseAddArgs args with
  | .error e => (.error e, st)
  | .ok (content, userId) =>
    let memory : Memory := ⟨genId digits, content, userId, ts⟩
    if sc.setOk then
      let st1 : ServerState :=
        { st with redis := redisSet (memKey userId memory.id) memory st.redis }
      if sc.zaddOk then
        (.ok ⟨addOkText userId memory.id⟩,
         { st1 with redis := redisZadd (zsetKey userId) score memory.id st1.redis })
      else
        (.ok ⟨addOkText userId memory.id⟩,
         { st1 with memories := st1.memories ++ [memory] })
    else
      (.ok ⟨addOkText userId memory.id⟩,
       { st with memories := st.memories ++ [memory] })

/-- Whether the durable backend serves a `searchMemories` call.  A
single flag suffices: if any redis call of the `try` block throws, the
partially built local array is discarded and the `catch` block runs the
fallback search from scratch. -/
structure SearchScenario where
  redisOk : Bool
  deriving Repr, DecidableEq

/-- A search result as pushed by both paths: the record minus its
`userId`. -/
structure ResultItem where
  id : String
  content : String
  timestamp : Nat
  deriving Repr, DecidableEq

/-- The projection applied to a matching record before it is returned. -/
def projMem (m : Memory) : ResultItem :=
  ⟨m.id, m.content, m.timestamp⟩

/-- The durable-backend search path: fetch up to 100 most recent ids
from the index, resolve each to its record (skipping missing ones),
keep the substring matches, project, sort by timestamp descending,
truncate to 10. -/
def redisSearchItems (query userId : String) (r : RedisState) : List ResultItem :=
  let fetched := (zrevrange100 (zsetKey userId) r).filterMap
    (fun mid => alGet (memKey userId mid) r.kv)
  (sortDescBy ResultItem.timestamp
    ((fetched.filter (memMatches query)).map projMem)).take 10

/-- The fallback search path: the user's memories, ranked, projected. -/
def fallbackSearchItems (query userId : String) (mems : List Memory) :
    List ResultItem :=
  (rank (mems.filter (fun m => m.userId == userId)) query).map projMem

/-- The result list of `searchMemories` on parsed arguments. -/
def searchItems (query userId : String) (sc : SearchScenario)
    (st : ServerState) : List ResultItem :=
  if sc.redisOk then redisSearchItems query userId st.redis
  else fallbackSearchItems query userId st.memories

/-- One numbered line of the search response. -/
def fmtItem (i : Nat) (r : ResultItem) : String :=
  toString (i + 1) ++ ". [" ++ toString r.timestamp ++ "] " ++ r.content

/-- The search response text. -/
def searchText (query : String) (items : List ResultItem) : String :=
  "Found " ++ toString items.length ++ " memories for query \"" ++ query
    ++ "\":\n\n"
    ++ String.intercalate "\n" (items.enum.map (fun p => fmtItem p.1 p.2))

/-- `searchMemories(args)`: parse, search on one of the two paths,
format.  The server state is never mutated. -/
def searchMemories (args : RawArgs) (sc : SearchScenario) (st : ServerState) :
    Except ToolFailure ToolResponse × ServerState :=
  match parseSearchArgs args with
  | .error e => (.error e, st)
  | .ok (query, userId) =>
    (.ok ⟨searchText query (searchItems query userId sc st)⟩, st)

/-! ### The `tools/call` dispatch -/

/-- The MCP error codes the handler can use.  `InvalidParams` is the
protocol's validation-failure category; the dispatch below never
produces it. -/
inductive ErrCode where
  | MethodNotFound
  | InvalidParams
  | InternalError
  deriving Repr, DecidableEq

/-- An `McpError` as thrown across the protocol boundary. -/
structure McpErr where
  code : ErrCode
  message : String
  deriving Repr, DecidableEq

/-- The opaque stringification of a `ZodError`, as interpolated into
the `InternalError` message. -/
def zodErrorText : String := "ZodError"

/-- All effect inputs of one `tools/call` invocation. -/
structure CallScenario where
  digits : List (Fin 36)
  ts : Nat
  score : Nat
  addSc : AddScenario
  searchSc : SearchScenario
  deriving Repr, DecidableEq

/-- The `tools/call` request handler: dispatch on the tool name;
rethrow `McpError`s (here: the `MethodNotFound` for unknown names);
wrap anything else — in particular the `ZodError` of a failed
`schema.parse` — as `InternalError`. -/
def toolsCall (name : String) (args : RawArgs) (env : CallScenario)
    (st : ServerState) : Except McpErr ToolResponse × ServerState :=
  if name == "add-memory" then
    match addMemory args env.digits env.ts env.score env.addSc st with
    | (.ok r, st1) => (.ok r, st1)
    | (.error .zodError, st1) =>
      (.error ⟨.InternalError, "Tool execution failed: " ++ zodErrorText⟩, st1)
  else if name == "search-memories" then
    match searchMemories args env.searchSc st with
    | (.ok r, st1) => (.ok r, st1)
    | (.error .zodError, st1) =>
      (.error ⟨.InternalError, "Tool execution failed: " ++ zodErrorText⟩, st1)
  else
    (.error ⟨.MethodNotFound, "Unknown tool: " ++ name⟩, st)

/-! ### Basic substring facts -/

theorem leadsWith_self (l : List Char) : leadsWith l l = true := by
  induction l with
  | nil => rfl
  | cons c cs ih => simp [leadsWith, ih]

theorem containsSubL_self (l : List Char) : containsSubL l l = true := by
  cases l with
  | nil => rfl
  | cons c cs => simp [containsSubL, leadsWith_self]

theorem containsSubL_append_self (n l : List Char) :
    containsSubL n (l ++ n) = true := by
  induction l with
  | nil => simpa using containsSubL_self n
  | cons c cs ih =>
    cases n with
    | nil => rfl
    | cons x xs =>
      show (leadsWith (x :: xs) (c :: (cs ++ x :: xs))
        || containsSubL (x :: xs) (cs ++ x :: xs)) = true
      rw [ih]
      simp

theorem containsSubL_nil_needle (l : List Char) :
    containsSubL [] l = true := by
  cases l <;> simp [containsSubL, leadsWith]

/-! ### Facts about the association-list operations -/

theorem alGet_mem {l : List (String × α)} {k : String} {v : α}
    (h : alGet k l = some v) : (k, v) ∈ l := by
  induction l with
  | nil => simp [alGet] at h
  | cons p rest ih =>
    by_cases hk : p.1 == k
    · have hk' : p.1 = k := beq_iff_eq.mp hk
      have : some p.2 = some v := by
        simpa [alGet, hk] using h
      have hv : p.2 = v := Option.some.inj this
      exact List.mem_cons.mpr (Or.inl (by rw [← hk', ← hv]))
    · have : alGet k rest = some v := by
        simpa [alGet, hk] using h
      exact List.mem_cons.mpr (Or.inr (ih this))

theorem mem_alSet {l : List (String × α)} {k0 k : String} {v0 v : α}
    (h : (k, v) ∈ alSet k0 v0 l) : (k = k0 ∧ v = v0) ∨ (k, v) ∈ l := by
  induction l with
  | nil =>
    simp [alSet] at h
    exact Or.inl ⟨h.1, h.2⟩
  | cons p rest ih =>
    by_cases hk : p.1 == k0
    · have h' : (k, v) ∈ (k0, v0) :: rest := by simpa [alSet, hk] using h
      rcases List.mem_cons.mp h' with heq | hrest
      · exact Or.inl ⟨congrArg Prod.fst heq, congrArg Prod.snd heq⟩
      · exact Or.inr (List.mem_cons.mpr (Or.inr hrest))
    · have h' : (k, v) ∈ p :: alSet k0 v0 rest := by simpa [alSet, hk] using h
      rcases List.mem_cons.mp h' with heq | hrest
      · exact Or.inr (List.mem_cons.mpr (Or.inl heq))
      · rcases ih hrest with hnew | hold
        · exact Or.inl hnew
        · exact Or.inr (List.mem_cons.mpr (Or.inr hold))

theorem alGet_alSet_self (k : String) (v : α) (l : List (String × α)) :
    alGet k (alSet k v l) = some v := by
  induction l with
  | nil => simp [alSet, alGet]
  | cons p rest ih =>
    by_cases hk : p.1 == k
    · simp [alSet, alGet, hk]
    · simp [alSet, alGet, hk, ih]

/-! ### C2 and C8: the search/ranking step -/

/-- C2: for every candidate list and query, the ranking step returns
exactly the candidates whose lower-cased content contains the
lower-cased query as a substring, in stable descending timestamp order
(`sortDescBy` is a permutation of the filtered list, pairwise sorted,
and preserves the relative order of equal timestamps), truncated to
the first 10; it returns a (possibly empty) list and never an error. -/
theorem rank_spec (cands : List Memory) (query : String) :
    rank cands query
        = (sortDescBy Memory.timestamp (cands.filter (memMatches query))).take 10
  ∧ (∀ m ∈ rank cands query, memMatches query m = true ∧ m ∈ cands)
  ∧ (rank cands query).Pairwise (fun a b => b.timestamp ≤ a.timestamp)
  ∧ (rank cands query).length = min 10 (cands.filter (memMatches query)).length
  ∧ List.Perm (sortDescBy Memory.timestamp (cands.filter (memMatches query)))
      (cands.filter (memMatches query))
  ∧ (∀ t, (sortDescBy Memory.timestamp (cands.filter (memMatches query))).filter
        (fun m => m.timestamp == t)
      = (cands.filter (memMatches query)).filter (fun m => m.timestamp == t))
  ∧ ((cands.filter (memMatches query)).length ≤ 10 →
      ∀ m ∈ cands, memMatches query m = true → m ∈ rank cands query)
  ∧ (cands.filter (memMatches query) = [] → rank cands query = []) := by
  refine ⟨rfl, ?_, ?_, ?_, sortDescBy_perm _ _, sortDescBy_filter_key _ _, ?_, ?_⟩
  · intro m hm
    have h1 : m ∈ sortDescBy Memory.timestamp (cands.filter (memMatches query)) :=
      List.mem_of_mem_take hm
    have h2 : m ∈ cands.filter (memMatches query) :=
      (sortDescBy_perm _ _).mem_iff.mp h1
    have h3 := List.mem_filter.mp h2
    exact ⟨h3.2, h3.1⟩
  · exact List.Pairwise.sublist (List.take_sublist _ _) (sortDescBy_pairwise Memory.timestamp _)
  · show (List.take 10 _).length = _
    rw [List.length_take, sortDescBy_length]
  · intro hlen m hm hmatch
    have hf : m ∈ cands.filter (memMatches query) :=
      List.mem_filter.mpr ⟨hm, hmatch⟩
    have hs : m ∈ sortDescBy Memory.timestamp (cands.filter (memMatches query)) :=
      (sortDescBy_perm _ _).mem_iff.mpr hf
    have hall : (sortDescBy Memory.timestamp (cands.filter (memMatches query))).length ≤ 10 := by
      rw [sortDescBy_length]; exact hlen
    show m ∈ List.take 10 _
    rw [List.take_of_length_le hall]
    exact hs
  · intro hnil
    show List.take 10 _ = _
    rw [hnil]
    rfl

/-- A witness instantiating `rank_spec` at concrete input. -/
theorem rank_spec_witness :
    (rank [⟨"a", "x", "u", 1⟩, ⟨"b", "y", "u", 3⟩] "Y"
        = (sortDescBy Memory.timestamp
            (([⟨"a", "x", "u", 1⟩, ⟨"b", "y", "u", 3⟩] : List Memory).filter
              (memMatches "Y"))).take 10)
  ∧ (∀ m ∈ rank [⟨"a", "x", "u", 1⟩, ⟨"b", "y", "u", 3⟩] "Y",
      memMatches "Y" m = true ∧ m ∈ [⟨"a", "x", "u", 1⟩, ⟨"b", "y", "u", 3⟩])
  ∧ (rank [⟨"a", "x", "u", 1⟩, ⟨"b", "y", "u", 3⟩] "Y").Pairwise
      (fun a b => b.timestamp ≤ a.timestamp)
  ∧ (rank [⟨"a", "x", "u", 1⟩, ⟨"b", "y", "u", 3⟩] "Y").length
      = min 10 (([⟨"a", "x", "u", 1⟩, ⟨"b", "y", "u", 3⟩] : List Memory).filter
          (memMatches "Y")).length
  ∧ List.Perm (sortDescBy Memory.timestamp
        (([⟨"a", "x", "u", 1⟩, ⟨"b", "y", "u", 3⟩] : List Memory).filter (memMatches "Y")))
      (([⟨"a", "x", "u", 1⟩, ⟨"b", "y", "u", 3⟩] : List Memory).filter (memMatches "Y"))
  ∧ (∀ t, (sortDescBy Memory.timestamp
        (([⟨"a", "x", "u", 1⟩, ⟨"b", "y", "u", 3⟩] : List Memory).filter
          (memMatches "Y"))).filter (fun m => m.timestamp == t)
      = (([⟨"a", "x", "u", 1⟩, ⟨"b", "y", "u", 3⟩] : List Memory).filter
          (memMatches "Y")).filter (fun m => m.timestamp == t))
  ∧ ((([⟨"a", "x", "u", 1⟩, ⟨"b", "y", "u", 3⟩] : List Memory).filter
        (memMatches "Y")).length ≤ 10 →
      ∀ m ∈ [⟨"a", "x", "u", 1⟩, ⟨"b", "y", "u", 3⟩], memMatches "Y" m = true →
        m ∈ rank [⟨"a", "x", "u", 1⟩, ⟨"b", "y", "u", 3⟩] "Y")
  ∧ (([⟨"a", "x", "u", 1⟩, ⟨"b", "y", "u", 3⟩] : List Memory).filter (memMatches "Y") = [] →
      rank [⟨"a", "x", "u", 1⟩, ⟨"b", "y", "u", 3⟩] "Y" = []) :=
  rank_spec [⟨"a", "x", "u", 1⟩, ⟨"b", "y", "u", 3⟩] "Y"

/-- Every memory matches the empty query. -/
theorem memMatches_empty (m : Memory) : memMatches "" m = true := by
  show containsSubL (jsToLowerCase "").data (jsToLowerCase m.content).data = true
  exact containsSubL_nil_needle _

/-- C8: the empty query matches every candidate, so ranking with the
empty query returns the up-to-10 most recent candidates regardless of
content, and the fallback search with the empty query returns the
up-to-10 most recent memories of the user. -/
theorem rank_empty_query (cands : List Memory) :
    rank cands "" = (sortDescBy Memory.timestamp cands).take 10
  ∧ (rank cands "").length = min 10 cands.length
  ∧ (rank cands "").Pairwise (fun a b => b.timestamp ≤ a.timestamp)
  ∧ (∀ (u : String) (mems : List Memory),
      fallbackSearchItems "" u mems
        = ((sortDescBy Memory.timestamp
            (mems.filter (fun m => m.userId == u))).take 10).map projMem)
  ∧ (∀ (u : String) (r : RedisState),
      redisSearchItems "" u r
        = (sortDescBy ResultItem.timestamp
            (((zrevrange100 (zsetKey u) r).filterMap
              (fun mid => alGet (memKey u mid) r.kv)).map projMem)).take 10) := by
  have hfil : ∀ l : List Memory, l.filter (memMatches "") = l := by
    intro l
    calc l.filter (memMatches "") = l.filter (fun _ => true) :=
          List.filter_congr (fun m _ => memMatches_empty m)
      _ = l := List.filter_true l
  refine ⟨?_, ?_, ?_, ?_, ?_⟩
  · show (sortDescBy Memory.timestamp (cands.filter (memMatches ""))).take 10 = _
    rw [hfil]
  · show (List.take 10 (sortDescBy Memory.timestamp (cands.filter (memMatches "")))).length = _
    rw [hfil, List.length_take, sortDescBy_length]
  · exact List.Pairwise.sublist (List.take_sublist _ _) (sortDescBy_pairwise Memory.timestamp _)
  · intro u mems
    show (rank (mems.filter (fun m => m.userId == u)) "").map projMem = _
    show ((sortDescBy Memory.timestamp
      ((mems.filter (fun m => m.userId == u)).filter (memMatches ""))).take 10).map projMem = _
    rw [hfil]
  · intro u r
    show (sortDescBy ResultItem.timestamp
        ((((zrevrange100 (zsetKey u) r).filterMap
            (fun mid => alGet (memKey u mid) r.kv)).filter
          (memMatches "")).map projMem)).take 10 = _
    rw [hfil]

/-! ### Helper equations for `addMemory`, `searchMemories`, `toolsCall` -/

theorem addMemory_ok_result {args : RawArgs} {c u : String}
    (digits : List (Fin 36)) (ts score : Nat) (sc : AddScenario)
    (st : ServerState) (h : parseAddArgs args = .ok (c, u)) :
    (addMemory args digits ts score sc st).1
      = .ok ⟨addOkText u (genId digits)⟩ := by
  rcases sc with ⟨so, zo⟩
  cases so <;> cases zo <;> simp [addMemory, h]

theorem addMemory_memories (args : RawArgs) (digits : List (Fin 36))
    (ts score : Nat) (sc : AddScenario) (st : ServerState) :
    (addMemory args digits ts score sc st).2.memories = st.memories
  ∨ ∃ m, (addMemory args digits ts score sc st).2.memories = st.memories ++ [m] := by
  rcases h : parseAddArgs args with e | ⟨c, u⟩
  · left; simp [addMemory, h]
  · rcases sc with ⟨so, zo⟩
    cases so
    · right
      refine ⟨⟨genId digits, c, u, ts⟩, ?_⟩
      simp [addMemory, h]
    · cases zo
      · right
        refine ⟨⟨genId digits, c, u, ts⟩, ?_⟩
        simp [addMemory, h]
      · left; simp [addMemory, h]

theorem searchMemories_state (args : RawArgs) (sc : SearchScenario)
    (st : ServerState) : (searchMemories args sc st).2 = st := by
  rcases h : parseSearchArgs args with e | ⟨q, u⟩ <;> simp [searchMemories, h]

theorem toolsCall_state (name : String) (args : RawArgs) (env : CallScenario)
    (st : ServerState) :
    (toolsCall name args env st).2
        = (addMemory args env.digits env.ts env.score env.addSc st).2
  ∨ (toolsCall name args env st).2 = st := by
  by_cases h1 : (name == "add-memory") = true
  · left
    rcases hE : addMemory args env.digits env.ts env.score env.addSc st with ⟨res, st1⟩
    rcases res with r | f
    · simp [toolsCall, h1, hE]
    · rcases f
      simp [toolsCall, h1, hE]
  · by_cases h2 : (name == "search-memories") = true
    · right
      rcases hE : searchMemories args env.searchSc st with ⟨res, st1⟩
      have hst : st1 = st := by
        have := searchMemories_state args env.searchSc st
        rw [hE] at this
        exact this
      rcases res with r | f
      · simp [toolsCall, h1, h2, hE, hst]
      · rcases f
        simp [toolsCall, h1, h2, hE, hst]
    · right
      simp [toolsCall, h1, h2]

/-! ### C10: the fallback array is append-only -/

/-- C10: every tool call either leaves the in-memory fallback array
unchanged or appends exactly one record at its end, and the search
operation never mutates the server state at all. -/
theorem toolsCall_append_only (name : String) (args : RawArgs)
    (env : CallScenario) (st : ServerState) :
    ((toolsCall name args env st).2.memories = st.memories
      ∨ ∃ m, (toolsCall name args env st).2.memories = st.memories ++ [m])
  ∧ (∀ sargs ssc, (searchMemories sargs ssc st).2 = st) := by
  constructor
  · rcases toolsCall_state name args env st with h | h
    · rw [h]
      exact addMemory_memories args env.digits env.ts env.score env.addSc st
    · left; rw [h]
  · intro sargs ssc
    exact searchMemories_state sargs ssc st

/-! ### C1: physical home of a record -/

/-- C1 counterexample: when the record write succeeds and the index
write fails, the record ends up in the durable store AND in the
in-memory fallback array — the claimed mutual exclusion fails exactly
in the partial-failure case it singles out. -/
theorem add_partial_failure_dual_home_cex :
    (alGet (memKey "quinn_may" "i")
        (addMemory ⟨some (.str "hello"), none, none⟩ [(18 : Fin 36)] 5 7
          ⟨true, false⟩ initState).2.redis.kv
      = some ⟨"i", "hello", "quinn_may", 5⟩)
  ∧ (⟨"i", "hello", "quinn_may", 5⟩ : Memory)
      ∈ (addMemory ⟨some (.str "hello"), none, none⟩ [(18 : Fin 36)] 5 7
          ⟨true, false⟩ initState).2.memories := by decide

/-- C1 amended: the durable backend and the fallback array are
mutually exclusive homes in the two total cases — both writes succeed
(record only durable, fallback untouched) or the record write fails
(record only in the fallback, durable state untouched) — but in the
partial-failure case (record write succeeds, index write fails) the
record is stored durably AND appended to the fallback array. -/
theorem addMemory_backend_placement (args : RawArgs) (c u : String)
    (digits : List (Fin 36)) (ts score : Nat) (sc : AddScenario)
    (st : ServerState) (h : parseAddArgs args = .ok (c, u)) :
    (sc.setOk = true →
        alGet (memKey u (genId digits))
          (addMemory args digits ts score sc st).2.redis.kv
          = some ⟨genId digits, c, u, ts⟩)
  ∧ (sc.setOk = true → sc.zaddOk = true →
        (addMemory args digits ts score sc st).2.memories = st.memories)
  ∧ (sc.setOk = false →
        (addMemory args digits ts score sc st).2.memories
            = st.memories ++ [⟨genId digits, c, u, ts⟩]
        ∧ (addMemory args digits ts score sc st).2.redis = st.redis)
  ∧ (sc.setOk = true → sc.zaddOk = false →
        (addMemory args digits ts score sc st).2.memories
            = st.memories ++ [⟨genId digits, c, u, ts⟩]) := by
  rcases sc with ⟨so, zo⟩
  cases so <;> cases zo <;>
    simp [addMemory, h, redisSet, redisZadd, alGet_alSet_self]

/-- C1 amended, witness: both-writes-succeed case at concrete input. -/
theorem addMemory_backend_placement_witness :
    ((⟨true, true⟩ : AddScenario).setOk = true →
        alGet (memKey "quinn_may" (genId [(18 : Fin 36)]))
          (addMemory ⟨some (.str "hello"), none, none⟩ [(18 : Fin 36)] 5 7
            ⟨true, true⟩ initState).2.redis.kv
          = some ⟨genId [(18 : Fin 36)], "hello", "quinn_may", 5⟩)
  ∧ ((⟨true, true⟩ : AddScenario).setOk = true →
        (⟨true, true⟩ : AddScenario).zaddOk = true →
        (addMemory ⟨some (.str "hello"), none, none⟩ [(18 : Fin 36)] 5 7
          ⟨true, true⟩ initState).2.memories = initState.memories)
  ∧ ((⟨true, true⟩ : AddScenario).setOk = false →
        (addMemory ⟨some (.str "hello"), none, none⟩ [(18 : Fin 36)] 5 7
          ⟨true, true⟩ initState).2.memories
            = initState.memories ++ [⟨genId [(18 : Fin 36)], "hello", "quinn_may", 5⟩]
        ∧ (addMemory ⟨some (.str "hello"), none, none⟩ [(18 : Fin 36)] 5 7
            ⟨true, true⟩ initState).2.redis = initState.redis)
  ∧ ((⟨true, true⟩ : AddScenario).setOk = true →
        (⟨true, true⟩ : AddScenario).zaddOk = false →
        (addMemory ⟨some (.str "hello"), none, none⟩ [(18 : Fin 36)] 5 7
          ⟨true, true⟩ initState).2.memories
            = initState.memories ++ [⟨genId [(18 : Fin 36)], "hello", "quinn_may", 5⟩]) :=
  addMemory_backend_placement ⟨some (.str "hello"), none, none⟩ "hello" "quinn_may"
    [(18 : Fin 36)] 5 7 ⟨true, true⟩ initState rfl

/-! ### C4: shape of generated ids -/

/-- Is a character a base-36 digit (`0`-`9` or `a`-`z`)? -/
def isBase36Char (ch : Char) : Bool :=
  (48 ≤ ch.toNat && ch.toNat ≤ 57) || (97 ≤ ch.toNat && ch.toNat ≤ 122)

theorem digitChar36_base36 : ∀ d : Fin 36, isBase36Char (digitChar36 d) = true := by
  decide

/-- C4 counterexample: the id length is not guaranteed to be at least
11.  For the random outcome `0.5` (`toString(36)` is `"0.i"`), the
assigned id is `"i"`, of length 1, and the add operation does create a
`Memory` with that one-character id. -/
theorem genId_short_cex :
    genId [(18 : Fin 36)] = "i"
  ∧ ¬ (11 ≤ (genId [(18 : Fin 36)]).length)
  ∧ (addMemory ⟨some (.str "hello"), none, none⟩ [(18 : Fin 36)] 5 7
      ⟨false, false⟩ initState).2.memories
      = [⟨"i", "hello", "quinn_may", 5⟩] := by decide

/-- C4 amended: the assigned id consists of base-36 digit characters
and has length `min 13 n`, where `n` is the number of base-36 fraction
digits of the random value — hence at most 13, but with no lower
bound. -/
theorem genId_shape (digits : List (Fin 36)) :
    (genId digits).length = min 13 digits.length
  ∧ (genId digits).length ≤ 13
  ∧ ∀ ch ∈ (genId digits).data, isBase36Char ch = true := by
  cases digits with
  | nil =>
    refine ⟨rfl, by decide, ?_⟩
    intro ch h
    simp [genId, substringJs, jsToString36] at h
  | cons d ds =>
    have hdata : (genId (d :: ds)).data
        = ((d :: ds).map digitChar36).take 13 := rfl
    refine ⟨?_, ?_, ?_⟩
    · show (genId (d :: ds)).data.length = _
      rw [hdata, List.length_take, List.length_map]
    · show (genId (d :: ds)).data.length ≤ 13
      rw [hdata, List.length_take, List.length_map]
      omega
    · intro ch h
      rw [hdata] at h
      have h1 : ch ∈ (d :: ds).map digitChar36 := List.mem_of_mem_take h
      rcases List.mem_map.mp h1 with ⟨e, _, rfl⟩
      exact digitChar36_base36 e

/-- C4 amended, witness. -/
theorem genId_shape_witness :
    (genId [(18 : Fin 36), (0 : Fin 36)]).length
        = min 13 ([(18 : Fin 36), (0 : Fin 36)] : List (Fin 36)).length
  ∧ (genId [(18 : Fin 36), (0 : Fin 36)]).length ≤ 13
  ∧ ∀ ch ∈ (genId [(18 : Fin 36), (0 : Fin 36)]).data, isBase36Char ch = true :=
  genId_shape [(18 : Fin 36), (0 : Fin 36)]

/-! ### C5: the content field -/

/-- C5 counterexample: the empty string is accepted as content and a
`Memory` with empty content is stored. -/
theorem empty_content_accepted_cex :
    (addMemory ⟨some (.str ""), none, none⟩ [(18 : Fin 36)] 5 7
        ⟨false, false⟩ initState).1
      = .ok ⟨addOkText "quinn_may" "i"⟩
  ∧ (addMemory ⟨some (.str ""), none, none⟩ [(18 : Fin 36)] 5 7
        ⟨false, false⟩ initState).2.memories
      = [⟨"i", "", "quinn_may", 5⟩] := ⟨rfl, by decide⟩

/-- C5 amended: `content` is required to be present and a string —
any string, the empty string included — and the stored `Memory`'s
content is exactly the supplied string; emptiness is not checked
anywhere. -/
theorem parseAddArgs_spec (args : RawArgs) (c u : String) :
    (parseAddArgs args = .ok (c, u) ↔
      (args.content = some (.str c)
        ∧ ((args.userId = none ∧ u = defaultUserId)
            ∨ args.userId = some (.str u))))
  ∧ (parseAddArgs args = .ok (c, u) →
      ∀ (digits : List (Fin 36)) (ts score : Nat) (sc : AddScenario)
        (st : ServerState), ∃ st1,
        addMemory args digits ts score sc st
            = (.ok ⟨addOkText u (genId digits)⟩, st1)
        ∧ ((⟨genId digits, c, u, ts⟩ : Memory) ∈ st1.memories
            ∨ alGet (memKey u (genId digits)) st1.redis.kv
                = some ⟨genId digits, c, u, ts⟩)) := by
  constructor
  · rcases args with ⟨co, uo, qo⟩
    rcases co with _ | ⟨s⟩ | _ <;> rcases uo with _ | ⟨t⟩ | _ <;>
      simp [parseAddArgs] <;> aesop
  · intro h digits ts score sc st
    rcases sc with ⟨so, zo⟩
    cases so
    · exact ⟨{ st with memories := st.memories ++ [⟨genId digits, c, u, ts⟩] },
        by simp [addMemory, h], Or.inl (by simp)⟩
    · cases zo
      · exact ⟨{ st with
            memories := st.memories ++ [⟨genId digits, c, u, ts⟩],
            redis := redisSet (memKey u (genId digits))
              ⟨genId digits, c, u, ts⟩ st.redis },
          by simp [addMemory, h], Or.inl (by simp)⟩
      · exact ⟨⟨st.memories,
            redisZadd (zsetKey u) score (genId digits)
              (redisSet (memKey u (genId digits))
                ⟨genId digits, c, u, ts⟩ st.redis)⟩,
          by simp [addMemory, h],
          Or.inr (by simp [redisZadd, redisSet, alGet_alSet_self])⟩

/-- C5 amended, witness. -/
theorem parseAddArgs_spec_witness :
    (parseAddArgs ⟨some (.str ""), none, none⟩ = .ok ("", "quinn_may") ↔
      ((⟨some (.str ""), none, none⟩ : RawArgs).content = some (.str "")
        ∧ (((⟨some (.str ""), none, none⟩ : RawArgs).userId = none
              ∧ "quinn_may" = defaultUserId)
            ∨ (⟨some (.str ""), none, none⟩ : RawArgs).userId
                = some (.str "quinn_may"))))
  ∧ (parseAddArgs ⟨some (.str ""), none, none⟩ = .ok ("", "quinn_may") →
      ∀ (digits : List (Fin 36)) (ts score : Nat) (sc : AddScenario)
        (st : ServerState), ∃ st1,
        addMemory ⟨some (.str ""), none, none⟩ digits ts score sc st
            = (.ok ⟨addOkText "quinn_may" (genId digits)⟩, st1)
        ∧ ((⟨genId digits, "", "quinn_may", ts⟩ : Memory) ∈ st1.memories
            ∨ alGet (memKey "quinn_may" (genId digits)) st1.redis.kv
                = some ⟨genId digits, "", "quinn_may", ts⟩)) :=
  parseAddArgs_spec ⟨some (.str ""), none, none⟩ "" "quinn_may"

/-! ### C9: failed validation mutates nothing -/

/-- C9: invoking add-memory without the `content` field fails (the
zod parse throws before the record is built) and leaves both the
fallback array and the durable store exactly as they were. -/
theorem add_missing_content_no_mutation (args : RawArgs) (env : CallScenario)
    (st : ServerState) (h : args.content = none) :
    addMemory args env.digits env.ts env.score env.addSc st
        = (.error .zodError, st)
  ∧ toolsCall "add-memory" args env st
      = (.error ⟨.InternalError, "Tool execution failed: " ++ zodErrorText⟩, st) := by
  have hp : parseAddArgs args = .error .zodError := by
    rcases args with ⟨co, uo, qo⟩
    simp only at h
    subst h
    rcases uo with _ | ⟨t⟩ | _ <;> simp [parseAddArgs]
  have h1 : addMemory args env.digits env.ts env.score env.addSc st
      = (.error .zodError, st) := by
    simp [addMemory, hp]
  refine ⟨h1, ?_⟩
  simp [toolsCall, h1]

/-- C9 witness. -/
theorem add_missing_content_no_mutation_witness :
    (addMemory ⟨none, some (.str "u1"), none⟩
        (⟨[(18 : Fin 36)], 5, 7, ⟨true, true⟩, ⟨true⟩⟩ : CallScenario).digits
        (⟨[(18 : Fin 36)], 5, 7, ⟨true, true⟩, ⟨true⟩⟩ : CallScenario).ts
        (⟨[(18 : Fin 36)], 5, 7, ⟨true, true⟩, ⟨true⟩⟩ : CallScenario).score
        (⟨[(18 : Fin 36)], 5, 7, ⟨true, true⟩, ⟨true⟩⟩ : CallScenario).addSc
        initState
        = (.error .zodError, initState))
  ∧ toolsCall "add-memory" ⟨none, some (.str "u1"), none⟩
        ⟨[(18 : Fin 36)], 5, 7, ⟨true, true⟩, ⟨true⟩⟩ initState
      = (.error ⟨.InternalError, "Tool execution failed: " ++ zodErrorText⟩,
         initState) :=
  add_missing_content_no_mutation ⟨none, some (.str "u1"), none⟩
    ⟨[(18 : Fin 36)], 5, 7, ⟨true, true⟩, ⟨true⟩⟩ initState rfl

/-! ### C3: the error category of malformed arguments -/

/-- C3 counterexample: a tool call with the required string field
missing is reported as `InternalError` (the `ZodError` is not an
`McpError`, so the catch-all wraps it), not as the protocol's
validation category `InvalidParams`. -/
theorem malformed_args_internal_error_cex :
    (toolsCall "add-memory" ⟨none, none, none⟩
        ⟨[(18 : Fin 36)], 5, 7, ⟨true, true⟩, ⟨true⟩⟩ initState).1
      = .error ⟨.InternalError, "Tool execution failed: ZodError"⟩
  ∧ ErrCode.InternalError ≠ ErrCode.InvalidParams := ⟨rfl, by decide⟩

/-- C3 amended: malformed arguments of either tool fail at the
protocol boundary with an `InternalError` signal — the schema
validation failure is wrapped by the catch-all, and no
`ValidationError`/`InvalidParams` signal is ever produced. -/
theorem malformed_args_wrapped_as_internal (args : RawArgs)
    (env : CallScenario) (st : ServerState) :
    (parseAddArgs args = .error .zodError →
      (toolsCall "add-memory" args env st).1
        = .error ⟨.InternalError, "Tool execution failed: " ++ zodErrorText⟩)
  ∧ (parseSearchArgs args = .error .zodError →
      (toolsCall "search-memories" args env st).1
        = .error ⟨.InternalError, "Tool execution failed: " ++ zodErrorText⟩) := by
  constructor
  · intro hp
    simp [toolsCall, addMemory, hp]
  · intro hp
    have hne : (("search-memories" : String) == "add-memory") = false := by decide
    simp [toolsCall, searchMemories, hp, hne]

/-- C3 amended, witness. -/
theorem malformed_args_wrapped_as_internal_witness :
    (parseAddArgs ⟨none, none, some (.str "q")⟩ = .error .zodError →
      (toolsCall "add-memory" ⟨none, none, some (.str "q")⟩
          ⟨[], 5, 7, ⟨true, true⟩, ⟨true⟩⟩ initState).1
        = .error ⟨.InternalError, "Tool execution failed: " ++ zodErrorText⟩)
  ∧ (parseSearchArgs ⟨none, none, some (.other)⟩ = .error .zodError →
      (toolsCall "search-memories" ⟨none, none, some (.other)⟩
          ⟨[], 5, 7, ⟨true, true⟩, ⟨true⟩⟩ initState).1
        = .error ⟨.InternalError, "Tool execution failed: " ++ zodErrorText⟩) := by
  constructor
  · intro hp
    exact (malformed_args_wrapped_as_internal ⟨none, none, some (.str "q")⟩
      ⟨[], 5, 7, ⟨true, true⟩, ⟨true⟩⟩ initState).1 hp
  · intro hp
    exact (malformed_args_wrapped_as_internal ⟨none, none, some (.other)⟩
      ⟨[], 5, 7, ⟨true, true⟩, ⟨true⟩⟩ initState).2 hp

/-! ### C6: silent degradation of the add operation -/

/-- C6: for every valid parsed `(content, userId)` input and every
backend scenario — both writes succeed, the record write fails, or
only the index write fails — the add operation returns a success
response whose text contains the new `Memory`'s id; no
`BackendUnavailable` condition ever surfaces to the tool caller. -/
theorem add_returns_id_regardless_of_backend (args : RawArgs) (c u : String)
    (env : CallScenario) (st : ServerState)
    (h : parseAddArgs args = .ok (c, u)) :
    (toolsCall "add-memory" args env st).1
        = .ok ⟨addOkText u (genId env.digits)⟩
  ∧ jsIncludes (addOkText u (genId env.digits)) (genId env.digits) = true := by
  constructor
  · rcases hE : addMemory args env.digits env.ts env.score env.addSc st
      with ⟨res, st1⟩
    have hr := addMemory_ok_result env.digits env.ts env.score env.addSc st h
    rw [hE] at hr
    simp only at hr
    subst hr
    simp [toolsCall, hE]
  · show containsSubL (genId env.digits).data
      (addOkText u (genId env.digits)).data = true
    have hd : (addOkText u (genId env.digits)).data
        = ("Memory added successfully for user " ++ u
            ++ ". Memory ID: ").data ++ (genId env.digits).data :=
      String.data_append _ _
    rw [hd]
    exact containsSubL_append_self _ _

/-- C6 witness: the record-write-failure scenario at concrete input. -/
theorem add_returns_id_regardless_of_backend_witness :
    (toolsCall "add-memory" ⟨some (.str "Hello World"), some (.str "u1"), none⟩
        ⟨[(18 : Fin 36)], 5, 7, ⟨false, false⟩, ⟨true⟩⟩ initState).1
        = .ok ⟨addOkText "u1"
            (genId (⟨[(18 : Fin 36)], 5, 7, ⟨false, false⟩, ⟨true⟩⟩
              : CallScenario).digits)⟩
  ∧ jsIncludes
      (addOkText "u1"
        (genId (⟨[(18 : Fin 36)], 5, 7, ⟨false, false⟩, ⟨true⟩⟩
          : CallScenario).digits))
      (genId (⟨[(18 : Fin 36)], 5, 7, ⟨false, false⟩, ⟨true⟩⟩
        : CallScenario).digits) = true :=
  add_returns_id_regardless_of_backend
    ⟨some (.str "Hello World"), some (.str "u1"), none⟩ "Hello World" "u1"
    ⟨[(18 : Fin 36)], 5, 7, ⟨false, false⟩, ⟨true⟩⟩ initState rfl

/-! ### C7: cross-user isolation

Keys are plain strings (`memory:<userId>:<id>`), so isolation is not
syntactically obvious: a composite key could in principle collide
across users if ids contained `:`.  Generated ids are base-36 digit
strings and never contain `:`, which makes the composite key injective
on all states reachable by the server's own operations. -/

/-- A string free of the `:` key separator. -/
def idOk (s : String) : Bool :=
  s.data.all (fun ch => ch != ':')

theorem digitChar36_ne_colon : ∀ d : Fin 36, (digitChar36 d != ':') = true := by
  decide

theorem genId_idOk (digits : List (Fin 36)) : idOk (genId digits) = true := by
  cases digits with
  | nil => decide
  | cons d ds =>
    show (((d :: ds).map digitChar36).take 13).all (fun ch => ch != ':') = true
    refine List.all_eq_true.mpr ?_
    intro ch hch
    rcases List.mem_map.mp (List.mem_of_mem_take hch) with ⟨e, _, rfl⟩
    exact digitChar36_ne_colon e

theorem idOk_not_mem_colon {s : String} (h : idOk s = true) : ':' ∉ s.data := by
  intro hmem
  have := List.all_eq_true.mp h ':' hmem
  simp at this

theorem colon_split (u1 i1 u2 i2 : List Char)
    (h1 : ':' ∉ i1) (h2 : ':' ∉ i2)
    (h : u1 ++ ':' :: i1 = u2 ++ ':' :: i2) : u1 = u2 ∧ i1 = i2 := by
  induction u1 generalizing u2 with
  | nil =>
    cases u2 with
    | nil =>
      refine ⟨rfl, ?_⟩
      simpa using h
    | cons c2 cs2 =>
      exfalso
      have h' : ':' :: i1 = c2 :: (cs2 ++ ':' :: i2) := by simpa using h
      have hc : c2 = ':' := (List.cons.injEq _ _ _ _ ▸ h').1.symm
      have hi : i1 = cs2 ++ ':' :: i2 := (List.cons.injEq _ _ _ _ ▸ h').2
      exact h1 (hi ▸ List.mem_append_right cs2 (List.mem_cons_self ':' i2))
  | cons c1 cs1 ih =>
    cases u2 with
    | nil =>
      exfalso
      have h' : c1 :: (cs1 ++ ':' :: i1) = ':' :: i2 := by simpa using h
      have hi : i2 = cs1 ++ ':' :: i1 := (List.cons.injEq _ _ _ _ ▸ h').2.symm
      exact h2 (hi ▸ List.mem_append_right cs1 (List.mem_cons_self ':' i1))
    | cons c2 cs2 =>
      have h' : c1 :: (cs1 ++ ':' :: i1) = c2 :: (cs2 ++ ':' :: i2) := by
        simpa using h
      have hc : c1 = c2 := (List.cons.injEq _ _ _ _ ▸ h').1
      have ht : cs1 ++ ':' :: i1 = cs2 ++ ':' :: i2 :=
        (List.cons.injEq _ _ _ _ ▸ h').2
      rcases ih cs2 ht with ⟨hu, hi⟩
      exact ⟨by rw [hc, hu], hi⟩

theorem memKey_data (u i : String) :
    (memKey u i).data = "memory:".data ++ (u.data ++ ':' :: i.data) := by
  show (("memory:" ++ u ++ ":") ++ i).data = _
  rw [String.data_append, String.data_append, String.data_append]
  simp [List.append_assoc]

theorem memKey_inj {u1 i1 u2 i2 : String}
    (h : memKey u1 i1 = memKey u2 i2)
    (h1 : idOk i1 = true) (h2 : idOk i2 = true) : u1 = u2 ∧ i1 = i2 := by
  have hd : (memKey u1 i1).data = (memKey u2 i2).data := by rw [h]
  rw [memKey_data, memKey_data] at hd
  have hd' := List.append_cancel_left hd
  rcases colon_split u1.data i1.data u2.data i2.data
    (idOk_not_mem_colon h1) (idOk_not_mem_colon h2) hd' with ⟨hu, hi⟩
  exact ⟨String.ext hu, String.ext hi⟩

/-- The durable-store well-formedness invariant: every record sits
under the composite key built from its own `userId` and (colon-free)
`id`, and every index member is colon-free. -/
def wfRedis (r : RedisState) : Prop :=
  (∀ k m, (k, m) ∈ r.kv → k = memKey m.userId m.id ∧ idOk m.id = true)
  ∧ (∀ zk entries mid scr, (zk, entries) ∈ r.zsets → (mid, scr) ∈ entries →
      idOk mid = true)

/-- The states the server can reach from start by its own tool
operations, with arbitrary arguments and backend-failure scenarios. -/
inductive Reachable : ServerState → Prop where
  | init : Reachable initState
  | addStep (args : RawArgs) (digits : List (Fin 36)) (ts score : Nat)
      (sc : AddScenario) (st : ServerState) :
      Reachable st → Reachable (addMemory args digits ts score sc st).2
  | searchStep (args : RawArgs) (sc : SearchScenario) (st : ServerState) :
      Reachable st → Reachable (searchMemories args sc st).2

theorem wfRedis_addMemory (args : RawArgs) (digits : List (Fin 36))
    (ts score : Nat) (sc : AddScenario) (st : ServerState)
    (h : wfRedis st.redis) :
    wfRedis (addMemory args digits ts score sc st).2.redis := by
  rcases h with ⟨hkv, hz⟩
  rcases hp : parseAddArgs args with e | ⟨c, u⟩
  · simpa [addMemory, hp] using ⟨hkv, hz⟩
  · rcases sc with ⟨so, zo⟩
    cases so
    · simpa [addMemory, hp] using ⟨hkv, hz⟩
    · have hkv1 : ∀ k m,
          (k, m) ∈ (alSet (memKey u (genId digits))
            (⟨genId digits, c, u, ts⟩ : Memory) st.redis.kv) →
          k = memKey m.userId m.id ∧ idOk m.id = true := by
        intro k m hm
        rcases mem_alSet hm with ⟨hk, hv⟩ | hold
        · subst hv
          exact ⟨hk, genId_idOk digits⟩
        · exact hkv k m hold
      cases zo
      · refine ⟨?_, ?_⟩ <;>
          simp only [addMemory, hp, redisSet]
        · exact hkv1
        · exact hz
      · refine ⟨?_, ?_⟩ <;>
          simp only [addMemory, hp, redisSet, redisZadd]
        · exact hkv1
        · intro zk entries mid scr hzk hmid
          rcases mem_alSet hzk with ⟨hk, hv⟩ | hold
          · subst hv
            rcases mem_alSet hmid with ⟨hmk, _⟩ | holde
            · subst hmk
              exact genId_idOk digits
            · rcases hg : alGet (zsetKey u) st.redis.zsets with _ | e0
              · rw [hg] at holde
                simp at holde
              · rw [hg] at holde
                exact hz (zsetKey u) e0 mid scr (alGet_mem hg) holde
          · exact hz zk entries mid scr hold hmid

theorem reachable_wfRedis {st : ServerState} (h : Reachable st) :
    wfRedis st.redis := by
  induction h with
  | init =>
    constructor
    · intro k m hm
      simp [initState] at hm
    · intro zk entries mid scr hzk
      simp [initState] at hzk
  | addStep args digits ts score sc st _ ih =>
    exact wfRedis_addMemory args digits ts score sc st ih
  | searchStep args sc st _ ih =>
    rw [searchMemories_state]
    exact ih

/-- C7: cross-user isolation.  On every reachable server state, every
result of a search under `u2` — on either backend path — is the
projection of a memory whose stored `userId` is `u2` (so a memory
recorded under any `u1 ≠ u2` never appears), and the fallback-path
output depends only on the memories stored with `userId = u2`. -/
theorem search_cross_user_isolation (st : ServerState) (hst : Reachable st)
    (query u2 : String) (sc : SearchScenario) :
    (∀ r ∈ searchItems query u2 sc st,
       ∃ m : Memory, m.userId = u2 ∧ r = projMem m
         ∧ memMatches query m = true
         ∧ (m ∈ st.memories ∨ alGet (memKey u2 m.id) st.redis.kv = some m))
  ∧ (∀ mems1 mems2 : List Memory,
       mems1.filter (fun m => m.userId == u2)
           = mems2.filter (fun m => m.userId == u2) →
       fallbackSearchItems query u2 mems1 = fallbackSearchItems query u2 mems2) := by
  constructor
  · intro r hr
    rcases sc with ⟨ro⟩
    cases ro
    · have hr' : r ∈ (rank (st.memories.filter (fun m => m.userId == u2))
          query).map projMem := hr
      rcases List.mem_map.mp hr' with ⟨m, hm, hproj⟩
      have hm1 : m ∈ sortDescBy Memory.timestamp
          ((st.memories.filter (fun m => m.userId == u2)).filter
            (memMatches query)) :=
        List.mem_of_mem_take hm
      have hm2 := (sortDescBy_perm _ _).mem_iff.mp hm1
      have hm3 := List.mem_filter.mp hm2
      have hm4 := List.mem_filter.mp hm3.1
      exact ⟨m, beq_iff_eq.mp hm4.2, hproj.symm, hm3.2, Or.inl hm4.1⟩
    · have hr' : r ∈ (sortDescBy ResultItem.timestamp
          ((((zrevrange100 (zsetKey u2) st.redis).filterMap
              (fun mid => alGet (memKey u2 mid) st.redis.kv)).filter
            (memMatches query)).map projMem)).take 10 := hr
      have h1 : r ∈ (((zrevrange100 (zsetKey u2) st.redis).filterMap
              (fun mid => alGet (memKey u2 mid) st.redis.kv)).filter
            (memMatches query)).map projMem :=
        (sortDescBy_perm _ _).mem_iff.mp (List.mem_of_mem_take hr')
      rcases List.mem_map.mp h1 with ⟨m, hmf, hproj⟩
      have hm2 := List.mem_filter.mp hmf
      rcases List.mem_filterMap.mp hm2.1 with ⟨mid, hmid, hget⟩
      have hwf := reachable_wfRedis hst
      rcases hwf.1 _ _ (alGet_mem hget) with ⟨hkeq, hidm⟩
      have hmid1 : mid ∈ (sortByBef zrevBef
          ((alGet (zsetKey u2) st.redis.zsets).getD [])).map Prod.fst :=
        List.mem_of_mem_take hmid
      rcases List.mem_map.mp hmid1 with ⟨p, hp, hpfst⟩
      have hp2 : p ∈ (alGet (zsetKey u2) st.redis.zsets).getD [] :=
        (sortByBef_perm _ _).mem_iff.mp hp
      have hmidok : idOk mid = true := by
        rcases hg : alGet (zsetKey u2) st.redis.zsets with _ | e0
        · rw [hg] at hp2
          simp at hp2
        · rw [hg] at hp2
          have hpe : (p.1, p.2) ∈ e0 := by simpa using hp2
          rw [hpfst] at hpe
          exact hwf.2 (zsetKey u2) e0 mid p.2 (alGet_mem hg) hpe
      rcases memKey_inj hkeq hmidok hidm with ⟨hu, hid⟩
      refine ⟨m, hu.symm, hproj.symm, hm2.2, Or.inr ?_⟩
      rw [← hid]
      exact hget
  · intro mems1 mems2 h12
    show (rank (mems1.filter (fun m => m.userId == u2)) query).map projMem
        = (rank (mems2.filter (fun m => m.userId == u2)) query).map projMem
    rw [h12]

/-- A concrete reachable state for the isolation witness: one memory
added for user `u1` with both durable writes succeeding. -/
def c7State : ServerState :=
  (addMemory ⟨some (.str "Hello World"), some (.str "u1"), none⟩
    [(18 : Fin 36)] 5 7 ⟨true, true⟩ initState).2

/-- C7 witness. -/
theorem search_cross_user_isolation_witness :
    (∀ r ∈ searchItems "hello" "u2" ⟨true⟩ c7State,
       ∃ m : Memory, m.userId = "u2" ∧ r = projMem m
         ∧ memMatches "hello" m = true
         ∧ (m ∈ c7State.memories
             ∨ alGet (memKey "u2" m.id) c7State.redis.kv = some m))
  ∧ (∀ mems1 mems2 : List Memory,
       mems1.filter (fun m => m.userId == "u2")
           = mems2.filter (fun m => m.userId == "u2") →
       fallbackSearchItems "hello" "u2" mems1
           = fallbackSearchItems "hello" "u2" mems2) :=
  search_cross_user_isolation c7State
    (Reachable.addStep ⟨some (.str "Hello World"), some (.str "u1"), none⟩
      [(18 : Fin 36)] 5 7 ⟨true, true⟩ initState Reachable.init)
    "hello" "u2" ⟨true⟩

end QMem
